import Mathlib

/-!
# Verification of the expense-tracker core (`src/expense_tracker_ai.py`)

Shallow embedding of the expense-record ingestion and aggregation pipeline.
Python floats are modelled as exact rationals (`ℚ`); every monetary value in
the claims is exactly representable, and the spec itself demands exact sums
("no silent rounding loss").  Python's string primitives (`str.split`,
`str.strip`, `float`, `re.search`) are modelled over `List Char` so that the
embedding is executable by the kernel; `\d` and `\s` are modelled over their
ASCII parts, which cover every input the claims mention.
-/

namespace ExpenseTracker

/-- One element of `st.session_state.expenses`: a dict with keys
`"Description"`, `"Amount"`, `"Category"`. -/
structure ExpenseRecord where
  description : String
  amount : ℚ
  category : String
deriving DecidableEq, Repr

/-- Decidable equality for `Except`, by cases; kernel-computable. -/
def exceptDecEq {ε α : Type} [DecidableEq ε] [DecidableEq α] :
    DecidableEq (Except ε α) := fun a b =>
  match a, b with
  | Except.error e, Except.error f =>
      if h : e = f then Decidable.isTrue (by rw [h])
      else Decidable.isFalse (by intro hc; cases hc; exact h rfl)
  | Except.ok x, Except.ok y =>
      if h : x = y then Decidable.isTrue (by rw [h])
      else Decidable.isFalse (by intro hc; cases hc; exact h rfl)
  | Except.error _, Except.ok _ => Decidable.isFalse (by intro hc; cases hc)
  | Except.ok _, Except.error _ => Decidable.isFalse (by intro hc; cases hc)

instance {ε α : Type} [DecidableEq ε] [DecidableEq α] : DecidableEq (Except ε α) :=
  exceptDecEq

/-- `CATEGORY_LABELS` from the source. -/
def CATEGORY_LABELS : List String :=
  ["Food", "Transport", "Utilities", "Entertainment", "Shopping", "Healthcare", "Others"]

/-! ## Python string primitives -/

/-- ASCII whitespace stripped by `str.strip()` (and matched by `\s`). -/
def pyIsSpace (c : Char) : Bool :=
  c = ' ' || c = '\t' || c = '\n' || c = '\r' || c = '\x0b' || c = '\x0c'

/-- `str.strip()` on the character list: drop whitespace at both ends. -/
def stripChars (cs : List Char) : List Char :=
  ((cs.dropWhile pyIsSpace).reverse.dropWhile pyIsSpace).reverse

/-- `str.strip()`. -/
def pyStrip (s : String) : String :=
  ⟨stripChars s.data⟩

/-- `str.split(sep)` for a one-character separator: split at every
occurrence, keeping empty fields; the result is never the empty list. -/
def splitCharsOn (sep : Char) : List Char → List (List Char)
  | [] => [[]]
  | c :: rest =>
      if c = sep then [] :: splitCharsOn sep rest
      else
        match splitCharsOn sep rest with
        | [] => [[c]]
        | f :: fs => (c :: f) :: fs

/-- `str.split(sep)`. -/
def pySplit (s : String) (sep : Char) : List String :=
  (splitCharsOn sep s.data).map (fun cs => ⟨cs⟩)

/-! ## Python `float()` on plain decimal strings

The source calls `float` on (a) stripped elements of the comma-split manual
amounts field and (b) the capture group of the extraction regex.  We model
the sign/digits/point fragment of Python's grammar
(`[+-]? (\d+ | \d+ . \d* | . \d+)`); exponents, `inf`/`nan` and underscores
are omitted — no input in the claims or in the handlers' own defaults uses
them.  A comma is *not* accepted: `float("45,50")` raises `ValueError`. -/

/-- Numeric value of a digit string (most significant first). -/
def digitsVal (cs : List Char) : ℕ :=
  cs.foldl (fun a c => a * 10 + (c.toNat - 48)) 0

/-- Exact value of the decimal literal `ipart.fpart`. -/
def decimalVal (ip fp : List Char) : ℚ :=
  Rat.divInt (digitsVal ip * 10 ^ fp.length + digitsVal fp) (10 ^ fp.length)

/-- `float()` on an unsigned body: digits with at most one `.`, not all
absent.  `none` models a `ValueError`.  (`takeWhile`/`dropWhile` at the
first `.` split the body into integer and fractional parts.) -/
def pyFloatUnsigned (cs : List Char) : Option ℚ :=
  match cs.dropWhile (fun c => c ≠ '.') with
  | [] =>
      if cs.takeWhile (fun c => c ≠ '.') ≠ [] ∧
          (cs.takeWhile (fun c => c ≠ '.')).all Char.isDigit then
        some (digitsVal (cs.takeWhile (fun c => c ≠ '.')))
      else none
  | _ :: fp =>
      if (cs.takeWhile (fun c => c ≠ '.') ≠ [] ∨ fp ≠ []) ∧
          (cs.takeWhile (fun c => c ≠ '.')).all Char.isDigit ∧ fp.all Char.isDigit then
        some (decimalVal (cs.takeWhile (fun c => c ≠ '.')) fp)
      else none

/-- Python `float(s)` (decimal fragment); `none` models a `ValueError`. -/
def pyFloat (s : String) : Option ℚ :=
  match s.data with
  | [] => none
  | c :: rest =>
      if c = '+' then pyFloatUnsigned rest
      else if c = '-' then (pyFloatUnsigned rest).map (fun v => -v)
      else pyFloatUnsigned (c :: rest)

/-! ## Messages shown to the user -/

/-- The `st.error` / `st.success` / uncaught-exception outcomes of one
handler run.  An uncaught exception ends the script run (Streamlit shows a
traceback; the process and the session state survive). -/
inductive Msg where
  | errorNumeric      -- "Amounts must be numeric."
  | errorMismatch     -- "Number of categories and amounts must match."
  | successManual     -- "✅ Manual expenses added!"
  | successAI         -- "Added ₹{amount} under '{category}'"
  | successClear      -- "✅ All previous expenses have been deleted. ..."
  | uncaughtException
deriving DecidableEq, Repr

/-! ## Manual ingestion (`Add Manual Expenses` handler, lines 38–55) -/

/-- The `[cat.strip() for cat in categories_input.split(',')]`
comprehension. -/
def splitCategories (s : String) : List String :=
  (pySplit s ',').map pyStrip

/-- The `try: amounts = [float(a.strip()) for a in s.split(',')] except
ValueError` body: left-to-right, failing at the first bad element. -/
def parseAll : List String → Option (List ℚ)
  | [] => some []
  | a :: rest =>
      match pyFloat (pyStrip a), parseAll rest with
      | some v, some vs => some (v :: vs)
      | _, _ => none

/-- Parse the comma-split manual amounts field. -/
def parseAmounts (s : String) : Option (List ℚ) :=
  parseAll (pySplit s ',')

/-- The `Add Manual Expenses` button handler.  Returns the new store and the
messages emitted.  On a `ValueError`, `amounts = []` and the length check
then necessarily fails (a split list is never empty), so nothing is
appended. -/
def addManualExpenses (store : List ExpenseRecord) (categories_input amounts_input : String) :
    List ExpenseRecord × List Msg :=
  let categories := splitCategories categories_input
  let parsed := match parseAmounts amounts_input with
    | some l => (l, ([] : List Msg))
    | none => ([], [Msg.errorNumeric])
  let amounts := parsed.1
  if categories.length ≠ amounts.length then (store, parsed.2 ++ [Msg.errorMismatch])
  else
    (store ++ (categories.zip amounts).map (fun p =>
        { description := "Manual: " ++ p.1, amount := p.2, category := p.1 }),
     parsed.2 ++ [Msg.successManual])

/-! ## Amount extraction (`extract_amount`, lines 62–64)

`re.search(r"(?:₹|INR)?\s?(\d+[.,]?\d*)", text)`: the leftmost position
where the pattern matches, greedily.  Backtracking over the two optional
prefixes never changes whether a match exists at a position (a failed
currency marker or consumed space is never a digit), so the greedy
first-success scan below is exact. -/

/-- The capture group `\d+[.,]?\d*` at the start of `cs`: one or more
digits, then optionally one `.` or `,`, then any further digits. -/
def numGroup (cs : List Char) : Option (List Char) :=
  if cs.takeWhile Char.isDigit = [] then none
  else
    match cs.dropWhile Char.isDigit with
    | [] => some (cs.takeWhile Char.isDigit)
    | c :: rest2 =>
        if c = '.' ∨ c = ',' then
          some (cs.takeWhile Char.isDigit ++ c :: rest2.takeWhile Char.isDigit)
        else some (cs.takeWhile Char.isDigit)

/-- After the optional currency marker: `\s?` then the capture group. -/
def afterCurrency (cs : List Char) : Option (List Char) :=
  match cs with
  | [] => none
  | c :: rest => if pyIsSpace c then numGroup rest else numGroup (c :: rest)

/-- Attempt the whole pattern at the current position: optional `₹` or
`INR`, optional whitespace, capture group. -/
def matchAt (cs : List Char) : Option (List Char) :=
  match cs with
  | '₹' :: rest => afterCurrency rest
  | 'I' :: 'N' :: 'R' :: rest => afterCurrency rest
  | _ => afterCurrency cs

/-- `re.search`: first position (left to right) where the pattern
matches; returns the capture group. -/
def searchAmount : List Char → Option (List Char)
  | [] => none
  | c :: rest =>
      match matchAt (c :: rest) with
      | some g => some g
      | none => searchAmount rest

/-- `float(match.group(1))`: `Except.error` models an uncaught
`ValueError` from `float` (a comma capture group). -/
def floatOfGroup (g : List Char) : Except Unit ℚ :=
  match pyFloat ⟨g⟩ with
  | some v => Except.ok v
  | none => Except.error ()

/-- `extract_amount(text)`: `float(match.group(1))` on the first match,
`0.0` when there is no match. -/
def extract_amount (text : String) : Except Unit ℚ :=
  match searchAmount text.data with
  | none => Except.ok 0
  | some g => floatOfGroup g

/-! ## Category classification (`classify_category`, lines 66–68) -/

/-- Behaviour of the external zero-shot classifier on one call:
it raises, or returns a falsy result (`None`/empty, modelled `returns
none`), or returns a truthy result carrying its `"labels"` list. -/
inductive ClassifierBehavior where
  | raises
  | returns (labels : Option (List String))
deriving DecidableEq, Repr

/-- `classify_category`: `result["labels"][0] if result else "Others"`.
A raised exception propagates; indexing an empty labels list raises
`IndexError`, which also propagates. -/
def classify_category (b : ClassifierBehavior) : Except Unit String :=
  match b with
  | ClassifierBehavior.raises => Except.error ()
  | ClassifierBehavior.returns none => Except.ok "Others"
  | ClassifierBehavior.returns (some labels) =>
      match labels with
      | [] => Except.error ()
      | l :: _ => Except.ok l

/-! ## AI ingestion (`Add AI-Predicted Expense` handler, lines 70–79) -/

/-- The AI button handler.  `if st.button(...) and user_input` makes an
empty text a no-op.  `extract_amount` runs first, then
`classify_category`; an exception from either aborts the run with the
store unchanged. -/
def addAIExpense (store : List ExpenseRecord) (text : String) (b : ClassifierBehavior) :
    List ExpenseRecord × List Msg :=
  if text.data = [] then (store, [])
  else
    match extract_amount text with
    | Except.error _ => (store, [Msg.uncaughtException])
    | Except.ok amount =>
        match classify_category b with
        | Except.error _ => (store, [Msg.uncaughtException])
        | Except.ok category =>
            (store ++ [{ description := text, amount := amount, category := category }],
             [Msg.successAI])

/-! ## Clear-all (lines 82–84) and operation sequences -/

/-- `Clear All Expenses` button handler: `st.session_state.expenses = []`. -/
def clearAllExpenses (store : List ExpenseRecord) : List ExpenseRecord × List Msg :=
  let _ := store
  ([], [Msg.successClear])

/-- One public operation on the store. -/
inductive Op where
  | manual (categories_input amounts_input : String)
  | ai (text : String) (b : ClassifierBehavior)
  | clear
deriving Repr

/-- The store after one operation. -/
def applyOp (store : List ExpenseRecord) : Op → List ExpenseRecord
  | Op.manual ci amts => (addManualExpenses store ci amts).1
  | Op.ai t b => (addAIExpense store t b).1
  | Op.clear => (clearAllExpenses store).1

/-- The store after a sequence of operations, starting from the session's
initial empty list (`st.session_state.expenses = []`). -/
def runOps (ops : List Op) : List ExpenseRecord :=
  ops.foldl applyOp []

/-! ## Aggregation and display (lines 87–125)

`df.groupby("Category")["Amount"].sum()` groups by the distinct category
keys in ascending (code-point lexicographic) key order;
`.sort_values(by="Amount", ascending=False)` then sorts by summed amount,
descending.  pandas' quicksort leaves the order of tied sums unspecified;
we model it as the stable `mergeSort`, one of the permitted choices. -/

/-- Python's `<` on strings: code-point lexicographic order. -/
def lexLt : List Char → List Char → Bool
  | [], [] => false
  | [], _ :: _ => true
  | _ :: _, [] => false
  | a :: as, b :: bs => if a < b then true else if b < a then false else lexLt as bs

/-- The ascending key order used by `groupby` on string keys. -/
def keyLe (a b : String) : Prop :=
  lexLt b.data a.data = false

instance : DecidableRel keyLe := fun a b => by unfold keyLe; infer_instance

/-- The descending-by-summed-amount order of `sort_values(by="Amount",
ascending=False)`. -/
def amountGe (p q : String × ℚ) : Prop :=
  q.2 ≤ p.2

instance : DecidableRel amountGe := fun p q => by unfold amountGe; infer_instance

/-- `df["Amount"].sum()`. -/
def totalOf (store : List ExpenseRecord) : ℚ :=
  (store.map (fun r => r.amount)).sum

/-- Sum of the amounts of the records in one category group. -/
def categorySum (store : List ExpenseRecord) (c : String) : ℚ :=
  ((store.filter (fun r => r.category = c)).map (fun r => r.amount)).sum

/-- The distinct category keys, in ascending key order (as `groupby`
yields them). -/
def groupKeys (store : List ExpenseRecord) : List String :=
  List.insertionSort keyLe ((store.map (fun r => r.category)).dedup)

/-- The summary frame: per-category sums, sorted descending by sum. -/
def summaryOf (store : List ExpenseRecord) : List (String × ℚ) :=
  List.insertionSort amountGe ((groupKeys store).map (fun c => (c, categorySum store c)))

/-- The derived views rendered by the display block. -/
structure Aggregates where
  total : ℚ
  overBudget : Option Bool
  summary : List (String × ℚ)
  avgExpense : ℚ
  topCategory : String
  topAmount : ℚ
deriving DecidableEq, Repr

/-- The whole `if st.session_state.expenses:` display block: skipped
entirely (`none`) on an empty store; otherwise the total, the budget
alert (evaluated only when `user_budget > 0`), the summary, the average
`total / len(df)` and the top summary row (`summary.iloc[0]`). -/
def displayBlock (store : List ExpenseRecord) (user_budget : ℚ) : Option Aggregates :=
  match store with
  | [] => none
  | _ :: _ =>
      let total := totalOf store
      let overBudget := if user_budget > 0 then some (decide (total > user_budget)) else none
      let summary := summaryOf store
      some
        { total := total
          overBudget := overBudget
          summary := summary
          avgExpense := total / (store.length : ℚ)
          topCategory := (summary.headI).1
          topAmount := (summary.headI).2 }

/-- The example store of §8 of the spec:
`[{Food,100},{Food,50},{Transport,25}]`. -/
def exampleStore : List ExpenseRecord :=
  [{ description := "a", amount := 100, category := "Food" },
   { description := "b", amount := 50, category := "Food" },
   { description := "c", amount := 25, category := "Transport" }]

/-! ## Basic lemmas -/

attribute [local semireducible] Rat.add Rat.mul Rat.ofScientific Rat.inv

theorem splitCharsOn_ne_nil (sep : Char) (cs : List Char) : splitCharsOn sep cs ≠ [] := by
  induction cs with
  | nil => simp [splitCharsOn]
  | cons c rest ih =>
      simp only [splitCharsOn]
      split
      · simp
      · cases h : splitCharsOn sep rest <;> simp

theorem pySplit_ne_nil (s : String) (sep : Char) : pySplit s sep ≠ [] := by
  simpa [pySplit] using splitCharsOn_ne_nil sep s.data

theorem splitCategories_ne_nil (s : String) : splitCategories s ≠ [] := by
  simpa [splitCategories] using pySplit_ne_nil s ','

theorem parseAll_length {xs : List String} {vs : List ℚ} (h : parseAll xs = some vs) :
    vs.length = xs.length := by
  induction xs generalizing vs with
  | nil =>
      simp only [parseAll, Option.some.injEq] at h
      subst h
      simp
  | cons a rest ih =>
      simp only [parseAll] at h
      rcases hp : pyFloat (pyStrip a) with _ | v <;> rw [hp] at h
      · exact absurd h (by simp)
      · rcases hr : parseAll rest with _ | ws <;> rw [hr] at h
        · exact absurd h (by simp)
        · cases h
          simp [ih hr]

theorem parseAll_mem {xs : List String} {vs : List ℚ} (h : parseAll xs = some vs)
    {v : ℚ} (hv : v ∈ vs) : ∃ x ∈ xs, pyFloat (pyStrip x) = some v := by
  induction xs generalizing vs with
  | nil =>
      simp only [parseAll, Option.some.injEq] at h
      subst h
      simp at hv
  | cons a rest ih =>
      simp only [parseAll] at h
      rcases hp : pyFloat (pyStrip a) with _ | w <;> rw [hp] at h
      · exact absurd h (by simp)
      · rcases hr : parseAll rest with _ | ws <;> rw [hr] at h
        · exact absurd h (by simp)
        · cases h
          rcases List.mem_cons.mp hv with hv | hv
          · exact ⟨a, by simp, by rw [hp, hv]⟩
          · obtain ⟨x, hx, hxv⟩ := ih hr hv
            exact ⟨x, by simp [hx], hxv⟩

theorem parseAll_none_of_bad {xs : List String} {a : String} (ha : a ∈ xs)
    (hbad : pyFloat (pyStrip a) = none) : parseAll xs = none := by
  induction xs with
  | nil => cases ha
  | cons x rest ih =>
      rcases List.mem_cons.mp ha with h | h
      · subst h
        rcases hr : parseAll rest with _ | ws <;> simp [parseAll, hbad, hr]
      · rcases hp : pyFloat (pyStrip x) with _ | v <;>
          simp [parseAll, hp, ih h]

/-! ## C4, C6: manual ingestion -/

/-- **C4.** Manual-entry validation is atomic: if some amount element fails
to parse as a number, or the trimmed category count differs from the amount
count, a validation error is reported and the store is exactly unchanged. -/
theorem manual_validation_atomic (store : List ExpenseRecord) (ci amts : String)
    (h : (∃ a ∈ pySplit amts ',', pyFloat (pyStrip a) = none) ∨
         (splitCategories ci).length ≠ (pySplit amts ',').length) :
    (addManualExpenses store ci amts).1 = store ∧
      (Msg.errorNumeric ∈ (addManualExpenses store ci amts).2 ∨
       Msg.errorMismatch ∈ (addManualExpenses store ci amts).2) := by
  have hcats : (splitCategories ci).length ≠ 0 := by
    simpa using splitCategories_ne_nil ci
  rcases hp : parseAmounts amts with _ | vs
  · -- ValueError branch: amounts = [], and the count check then fails
    simp only [addManualExpenses, hp]
    simp [hcats]
  · -- all elements parsed: the claim hypothesis forces a count mismatch
    have hlen : vs.length = (pySplit amts ',').length := parseAll_length hp
    have hne : (splitCategories ci).length ≠ vs.length := by
      rcases h with ⟨a, ha, hbad⟩ | h
      · exact absurd hp (by simp [parseAmounts, parseAll_none_of_bad ha hbad])
      · omega
    simp only [addManualExpenses, hp]
    simp [hne]

/-- Witness for `manual_validation_atomic`: categories `"Food, Transport"`
with amounts `"100"` leave the store unchanged and report an error. -/
theorem manual_validation_atomic_witness :
    (addManualExpenses [] "Food, Transport" "100").1 = [] ∧
      (Msg.errorNumeric ∈ (addManualExpenses [] "Food, Transport" "100").2 ∨
       Msg.errorMismatch ∈ (addManualExpenses [] "Food, Transport" "100").2) :=
  manual_validation_atomic [] "Food, Transport" "100" (Or.inr (by decide))

/-- **C6.** Manual ingestion success: with equal counts and all amounts
numeric, exactly one record per `(category, amount)` pair is appended in
field order, with description `"Manual: " + category`, the parsed amount,
and the category as typed; pre-existing records are preserved in order. -/
theorem manual_ingestion_success (store : List ExpenseRecord) (ci amts : String)
    (vs : List ℚ) (hparse : parseAmounts amts = some vs)
    (hlen : (splitCategories ci).length = vs.length) :
    addManualExpenses store ci amts =
      (store ++ ((splitCategories ci).zip vs).map (fun p =>
          { description := "Manual: " ++ p.1, amount := p.2, category := p.1 }),
       [Msg.successManual]) ∧
      (((splitCategories ci).zip vs).map (fun p =>
          ({ description := "Manual: " ++ p.1, amount := p.2, category := p.1 } :
            ExpenseRecord))).length = (splitCategories ci).length := by
  constructor
  · simp only [addManualExpenses, hparse]
    simp [hlen]
  · simp [List.length_zip, hlen]

/-- Witness for `manual_ingestion_success`: categories `"Food, Transport"`
with amounts `"100, 50"` append exactly the two expected records. -/
theorem manual_ingestion_success_witness :
    addManualExpenses [] "Food, Transport" "100, 50" =
      ([] ++ ((splitCategories "Food, Transport").zip [(100 : ℚ), 50]).map (fun p =>
          { description := "Manual: " ++ p.1, amount := p.2, category := p.1 }),
       [Msg.successManual]) ∧
      (((splitCategories "Food, Transport").zip [(100 : ℚ), 50]).map (fun p =>
          ({ description := "Manual: " ++ p.1, amount := p.2, category := p.1 } :
            ExpenseRecord))).length = (splitCategories "Food, Transport").length :=
  manual_ingestion_success [] "Food, Transport" "100, 50" [100, 50] (by decide) (by decide)

/-! ## Extraction lemmas -/

theorem numGroup_digit {cs g : List Char} (h : numGroup cs = some g) :
    ∃ c ∈ cs, c.isDigit = true := by
  by_cases hds : cs.takeWhile Char.isDigit = []
  · simp [numGroup, hds] at h
  · cases cs with
    | nil => simp at hds
    | cons c rest =>
        refine ⟨c, by simp, ?_⟩
        by_contra hc
        simp only [Bool.not_eq_true] at hc
        simp [List.takeWhile_cons, hc] at hds

theorem afterCurrency_digit {cs g : List Char} (h : afterCurrency cs = some g) :
    ∃ c ∈ cs, c.isDigit = true := by
  cases cs with
  | nil => simp [afterCurrency] at h
  | cons c rest =>
      simp only [afterCurrency] at h
      by_cases hsp : pyIsSpace c = true
      · rw [if_pos hsp] at h
        obtain ⟨d, hd, hdig⟩ := numGroup_digit h
        exact ⟨d, by simp [hd], hdig⟩
      · rw [if_neg hsp] at h
        exact numGroup_digit h

theorem matchAt_digit {cs g : List Char} (h : matchAt cs = some g) :
    ∃ c ∈ cs, c.isDigit = true := by
  unfold matchAt at h
  split at h
  · obtain ⟨d, hd, hdig⟩ := afterCurrency_digit h
    exact ⟨d, by simp [hd], hdig⟩
  · obtain ⟨d, hd, hdig⟩ := afterCurrency_digit h
    exact ⟨d, by simp [hd], hdig⟩
  · exact afterCurrency_digit h

theorem searchAmount_digit {cs g : List Char} (h : searchAmount cs = some g) :
    ∃ c ∈ cs, c.isDigit = true := by
  induction cs with
  | nil => simp [searchAmount] at h
  | cons c rest ih =>
      simp only [searchAmount] at h
      rcases hm : matchAt (c :: rest) with _ | g' <;> rw [hm] at h
      · obtain ⟨d, hd, hdig⟩ := ih h
        exact ⟨d, by simp [hd], hdig⟩
      · cases h
        exact matchAt_digit hm

theorem searchAmount_of_no_digit {cs : List Char} (h : ∀ c ∈ cs, c.isDigit = false) :
    searchAmount cs = none := by
  rcases hs : searchAmount cs with _ | g
  · rfl
  · obtain ⟨c, hc, hdig⟩ := searchAmount_digit hs
    rw [h c hc] at hdig
    cases hdig

/-! ## C8: extraction reference values -/

/-- **C8.** The reference extractions of §8, the first-match behaviour on a
text with several numbers, and `0.0` whenever the text has no digit at all
(hence no match). -/
theorem extract_amount_reference_values :
    extract_amount "Paid ₹600 for medicines" = Except.ok 600 ∧
    extract_amount "no numbers here" = Except.ok 0 ∧
    extract_amount "INR 45.50 taxi" = Except.ok 45.5 ∧
    extract_amount "Spent 12 then 34" = Except.ok 12 ∧
    ∀ s : String, (∀ c ∈ s.data, c.isDigit = false) → extract_amount s = Except.ok 0 := by
  refine ⟨by decide, by decide, by decide, by decide, ?_⟩
  intro s hs
  unfold extract_amount
  rw [searchAmount_of_no_digit hs]

/-- Witness for `extract_amount_reference_values`: `"no numbers here"` has
no digit and extracts `0.0`. -/
theorem extract_amount_reference_values_witness :
    (∀ c ∈ "no numbers here".data, c.isDigit = false) ∧
      extract_amount "no numbers here" = Except.ok 0 :=
  ⟨by decide, extract_amount_reference_values.2.2.2.2 "no numbers here" (by decide)⟩

/-! ## C2: comma decimal separators -/

/-- **C2 is false of the code.**  On `"INR 45,50"` the regex's first match
captures `"45,50"`, but Python's `float` does not accept `,` as a decimal
point: `float("45,50")` raises `ValueError`, so `extract_amount` propagates
an exception instead of returning `45.5`. -/
theorem comma_decimal_raises :
    searchAmount "INR 45,50".data = some ['4', '5', ',', '5', '0'] ∧
    pyFloat ⟨['4', '5', ',', '5', '0']⟩ = none ∧
    extract_amount "INR 45,50" = Except.error () := by
  decide

/-! ## Nonnegativity of extracted amounts -/

theorem pyFloatUnsigned_nonneg {cs : List Char} {v : ℚ} (h : pyFloatUnsigned cs = some v) :
    0 ≤ v := by
  unfold pyFloatUnsigned at h
  split at h
  · split_ifs at h
    cases h
    exact Nat.cast_nonneg _
  · split_ifs at h
    cases h
    exact Rat.divInt_nonneg (by positivity) (by positivity)

theorem numGroup_head {cs g : List Char} (h : numGroup cs = some g) :
    ∃ d t, g = d :: t ∧ d.isDigit = true := by
  unfold numGroup at h
  by_cases hds : cs.takeWhile Char.isDigit = []
  · rw [if_pos hds] at h
    cases h
  · rw [if_neg hds] at h
    rcases hdt : cs.takeWhile Char.isDigit with _ | ⟨d, t'⟩
    · exact absurd hdt hds
    · have hdig : d.isDigit = true := List.mem_takeWhile_imp (l := cs) (by simp [hdt])
      rw [hdt] at h
      rcases hdw : cs.dropWhile Char.isDigit with _ | ⟨c, rest2⟩ <;>
        simp only [hdw] at h
      · cases h
        exact ⟨d, t', rfl, hdig⟩
      · by_cases hc : c = '.' ∨ c = ','
        · rw [if_pos hc] at h
          cases h
          exact ⟨d, t' ++ c :: rest2.takeWhile Char.isDigit, by simp, hdig⟩
        · rw [if_neg hc] at h
          cases h
          exact ⟨d, t', rfl, hdig⟩

theorem afterCurrency_head {cs g : List Char} (h : afterCurrency cs = some g) :
    ∃ d t, g = d :: t ∧ d.isDigit = true := by
  cases cs with
  | nil => simp [afterCurrency] at h
  | cons c rest =>
      simp only [afterCurrency] at h
      split_ifs at h <;> exact numGroup_head h

theorem matchAt_head {cs g : List Char} (h : matchAt cs = some g) :
    ∃ d t, g = d :: t ∧ d.isDigit = true := by
  unfold matchAt at h
  split at h <;> exact afterCurrency_head h

theorem searchAmount_head {cs g : List Char} (h : searchAmount cs = some g) :
    ∃ d t, g = d :: t ∧ d.isDigit = true := by
  induction cs with
  | nil => simp [searchAmount] at h
  | cons c rest ih =>
      simp only [searchAmount] at h
      rcases hm : matchAt (c :: rest) with _ | g' <;> rw [hm] at h
      · exact ih h
      · cases h
        exact matchAt_head hm

theorem pyFloat_digit_head {d : Char} {t : List Char} {v : ℚ}
    (hdig : d.isDigit = true) (h : pyFloat ⟨d :: t⟩ = some v) : 0 ≤ v := by
  have hplus : ¬ d = '+' := by intro he; subst he; simp [Char.isDigit] at hdig
  have hminus : ¬ d = '-' := by intro he; subst he; simp [Char.isDigit] at hdig
  simp only [pyFloat, if_neg hplus, if_neg hminus] at h
  exact pyFloatUnsigned_nonneg h

theorem extract_amount_ok_nonneg {text : String} {v : ℚ}
    (h : extract_amount text = Except.ok v) : 0 ≤ v := by
  rcases hs : searchAmount text.data with _ | g
  · simp only [extract_amount, hs, Except.ok.injEq] at h
    rw [← h]
  · obtain ⟨d, t, hg, hdig⟩ := searchAmount_head hs
    subst hg
    simp only [extract_amount, hs, floatOfGroup] at h
    rcases hp : pyFloat ⟨d :: t⟩ with _ | w <;> rw [hp] at h
    · cases h
    · simp only [Except.ok.injEq] at h
      rw [← h]
      exact pyFloat_digit_head hdig hp

/-! ## C3: classifier failure handling -/

/-- **C3 is false of the code.**  `classify_category` has no exception
handling: a raising classifier propagates, and a truthy result with an
empty `"labels"` list raises `IndexError` at `result["labels"][0]`.  In
both cases the AI handler run aborts and appends nothing — the category
does not default to `"Others"`.  Only a falsy (`None`/empty) result is
mapped to `"Others"` with ingestion proceeding. -/
theorem classifier_failure_crashes :
    classify_category ClassifierBehavior.raises = Except.error () ∧
    classify_category (ClassifierBehavior.returns (some [])) = Except.error () ∧
    addAIExpense [] "Paid ₹600 for medicines" ClassifierBehavior.raises =
      ([], [Msg.uncaughtException]) ∧
    addAIExpense [] "Paid ₹600 for medicines" (ClassifierBehavior.returns (some [])) =
      ([], [Msg.uncaughtException]) ∧
    addAIExpense [] "Paid ₹600 for medicines" (ClassifierBehavior.returns none) =
      ([{ description := "Paid ₹600 for medicines", amount := 600, category := "Others" }],
       [Msg.successAI]) := by
  decide

/-! ## C1: the store invariant -/

/-- The invariant claimed in §3 of the spec for each record. -/
def recordOK (r : ExpenseRecord) : Prop :=
  0 ≤ r.amount ∧ r.category ≠ ""

/-- §4.2 contract for the classifier collaborator: when it returns labels,
the best label is from the fixed set. -/
def classifierContract : ClassifierBehavior → Prop
  | ClassifierBehavior.returns (some (l :: _)) => l ∈ CATEGORY_LABELS
  | _ => True

/-- Inputs under which one operation respects the invariant: manual fields
whose trimmed categories are non-empty and whose amounts parse only to
non-negative values, and classifier calls honouring the §4.2 contract. -/
def opOK : Op → Prop
  | Op.manual ci amts =>
      (∀ c ∈ splitCategories ci, c ≠ "") ∧
      (∀ a ∈ pySplit amts ',', ∀ v ∈ (pyFloat (pyStrip a)).toList, 0 ≤ v)
  | Op.ai _ b => classifierContract b
  | Op.clear => True

theorem label_ne_empty : ∀ l ∈ CATEGORY_LABELS, l ≠ "" := by decide

theorem addManualExpenses_cases (store : List ExpenseRecord) (ci amts : String) :
    (addManualExpenses store ci amts).1 = store ∨
    ∃ vs, parseAmounts amts = some vs ∧
      (addManualExpenses store ci amts).1 =
        store ++ ((splitCategories ci).zip vs).map (fun p =>
          { description := "Manual: " ++ p.1, amount := p.2, category := p.1 }) := by
  rcases hp : parseAmounts amts with _ | vs
  · left
    have hcats : (splitCategories ci).length ≠ 0 := by
      simpa using splitCategories_ne_nil ci
    simp only [addManualExpenses, hp]
    simp [hcats]
  · by_cases hlen : (splitCategories ci).length = vs.length
    · right
      refine ⟨vs, rfl, ?_⟩
      simp only [addManualExpenses, hp]
      simp [hlen]
    · left
      simp only [addManualExpenses, hp]
      simp [hlen]

theorem applyOp_preserves {store : List ExpenseRecord} {op : Op}
    (hstore : ∀ r ∈ store, recordOK r) (hop : opOK op) :
    ∀ r ∈ applyOp store op, recordOK r := by
  cases op with
  | manual ci amts =>
      obtain ⟨hcat, hamt⟩ := hop
      intro r hr
      rcases addManualExpenses_cases store ci amts with hcase | ⟨vs, hp, hcase⟩ <;>
        simp only [applyOp] at hr <;> rw [hcase] at hr
      · exact hstore r hr
      · rcases List.mem_append.mp hr with hr | hr
        · exact hstore r hr
        · obtain ⟨p, hpz, hpr⟩ := List.mem_map.mp hr
          obtain ⟨hc, hv⟩ := List.of_mem_zip hpz
          obtain ⟨a, ha, hav⟩ := parseAll_mem hp hv
          refine ⟨?_, ?_⟩
          · have := hamt a ha p.2 (by simp [hav])
            simpa [← hpr] using this
          · have := hcat p.1 hc
            simpa [← hpr] using this
  | ai t b =>
      intro r hr
      simp only [applyOp, addAIExpense] at hr
      split_ifs at hr with ht
      · exact hstore r hr
      · rcases he : extract_amount t with _ | amount <;> rw [he] at hr
        · exact hstore r hr
        · rcases hc : classify_category b with _ | cat <;> rw [hc] at hr
          · exact hstore r hr
          · rcases List.mem_append.mp hr with hr | hr
            · exact hstore r hr
            · rcases List.mem_singleton.mp hr with rfl
              refine ⟨extract_amount_ok_nonneg he, ?_⟩
              cases b with
              | raises => simp [classify_category] at hc
              | returns labels =>
                  cases labels with
                  | none =>
                      simp only [classify_category, Except.ok.injEq] at hc
                      subst hc
                      exact (by decide : ("Others" : String) ≠ "")
                  | some ls =>
                      cases ls with
                      | nil => simp [classify_category] at hc
                      | cons l t' =>
                          simp only [classify_category, Except.ok.injEq] at hc
                          subst hc
                          exact label_ne_empty l hop
  | clear =>
      intro r hr
      simp [applyOp, clearAllExpenses] at hr

theorem foldl_preserves (ops : List Op) :
    ∀ store, (∀ r ∈ store, recordOK r) → (∀ op ∈ ops, opOK op) →
      ∀ r ∈ ops.foldl applyOp store, recordOK r := by
  induction ops with
  | nil => intro store h _; simpa
  | cons op rest ih =>
      intro store h hops
      simp only [List.foldl_cons]
      exact ih _ (applyOp_preserves h (hops op (by simp)))
        (fun o ho => hops o (by simp [ho]))

/-- **C1 counterexample.**  The claim is false as stated: manual ingestion
with amounts field `"-5"` is accepted (`float("-5")` parses) and appends a
record with a negative amount, and manual ingestion with categories field
`","` appends records whose category is the empty string — both reachable
stores violate the claimed invariant. -/
theorem store_invariant_counterexample :
    runOps [Op.manual "Food" "-5"] =
      [{ description := "Manual: Food", amount := -5, category := "Food" }] ∧
    ¬ (0 : ℚ) ≤ -5 ∧
    (runOps [Op.manual "," "1, 2"]).map (fun r => r.category) = ["", ""] := by
  decide

/-- **C1 amended.**  After any sequence of public operations in which every
manual batch has non-empty trimmed categories and only non-negative parsed
amounts, and every classifier call honours the §4.2 contract, every record
in the store has `amount ≥ 0` and a non-empty category. -/
theorem store_invariant_amended (ops : List Op) (hops : ∀ op ∈ ops, opOK op) :
    ∀ r ∈ runOps ops, 0 ≤ r.amount ∧ r.category ≠ "" :=
  foldl_preserves ops [] (by simp) hops

/-- Witness for `store_invariant_amended` on a concrete operation
sequence. -/
theorem store_invariant_amended_witness :
    (∀ op ∈ [Op.manual "Food, Transport" "100, 50",
             Op.ai "Paid ₹600 for medicines" (ClassifierBehavior.returns none)],
        opOK op) ∧
      ∀ r ∈ runOps [Op.manual "Food, Transport" "100, 50",
                    Op.ai "Paid ₹600 for medicines" (ClassifierBehavior.returns none)],
        0 ≤ r.amount ∧ r.category ≠ "" :=
  have hops : ∀ op ∈ [Op.manual "Food, Transport" "100, 50",
      Op.ai "Paid ₹600 for medicines" (ClassifierBehavior.returns none)], opOK op := by
    intro op hop
    rcases List.mem_cons.mp hop with rfl | hop
    · exact ⟨by decide, by decide⟩
    · rcases List.mem_singleton.mp hop with rfl
      exact trivial
  ⟨hops, store_invariant_amended _ hops⟩

/-! ## Aggregation lemmas -/

instance : IsTotal (String × ℚ) amountGe :=
  ⟨fun p q => le_total q.2 p.2⟩

instance : IsTrans (String × ℚ) amountGe :=
  ⟨fun _ _ _ h1 h2 => le_trans h2 h1⟩

theorem summaryOf_perm (store : List ExpenseRecord) :
    List.Perm (summaryOf store) ((groupKeys store).map (fun c => (c, categorySum store c))) :=
  List.perm_insertionSort amountGe _

theorem groupKeys_perm (store : List ExpenseRecord) :
    List.Perm (groupKeys store) ((store.map (fun r => r.category)).dedup) :=
  List.perm_insertionSort keyLe _

theorem summaryOf_keys_perm (store : List ExpenseRecord) :
    List.Perm ((summaryOf store).map Prod.fst) ((store.map (fun r => r.category)).dedup) := by
  have h1 : List.Perm ((summaryOf store).map Prod.fst)
      (((groupKeys store).map (fun c => (c, categorySum store c))).map Prod.fst) :=
    (summaryOf_perm store).map Prod.fst
  have h2 : ((groupKeys store).map (fun c => (c, categorySum store c))).map Prod.fst
      = groupKeys store := by simp [Function.comp_def]
  rw [h2] at h1
  exact h1.trans (groupKeys_perm store)

theorem summaryOf_mem {store : List ExpenseRecord} {p : String × ℚ}
    (hp : p ∈ summaryOf store) : p.2 = categorySum store p.1 := by
  have hm : p ∈ (groupKeys store).map (fun c => (c, categorySum store c)) :=
    (summaryOf_perm store).mem_iff.mp hp
  obtain ⟨c, _, hcp⟩ := List.mem_map.mp hm
  rw [← hcp]

theorem summaryOf_sorted (store : List ExpenseRecord) :
    (summaryOf store).Sorted amountGe :=
  List.sorted_insertionSort amountGe _

theorem summaryOf_ne_nil {store : List ExpenseRecord} (h : store ≠ []) :
    summaryOf store ≠ [] := by
  have hlen : (summaryOf store).length = ((store.map (fun r => r.category)).dedup).length := by
    simp [summaryOf, groupKeys, List.length_insertionSort]
  intro hnil
  rw [hnil] at hlen
  have : (store.map (fun r => r.category)).dedup = [] := by
    cases hd : (store.map (fun r => r.category)).dedup
    · rfl
    · rw [hd] at hlen; simp at hlen
  rw [List.dedup_eq_nil] at this
  exact h (by simpa using this)

/-! ## C5: aggregator correctness -/

/-- **C5.** For every non-empty store the display block runs and yields:
total = the sum of all record amounts; average = total / record count;
a summary whose entries carry the per-category sums, whose keys are
exactly the distinct categories of the store, sorted descending by summed
amount; and the top category/amount as the summary's first entry.  On the
§8 example store with budget 0 it yields exactly the reference values
(average `175/3 ≈ 58.33`). -/
theorem aggregator_correct (store : List ExpenseRecord) (b : ℚ) (h : store ≠ []) :
    (∃ a, displayBlock store b = some a ∧
      a.total = (store.map (fun r => r.amount)).sum ∧
      a.avgExpense = a.total / (store.length : ℚ) ∧
      (∀ p ∈ a.summary, p.2 = categorySum store p.1) ∧
      List.Perm (a.summary.map Prod.fst) ((store.map (fun r => r.category)).dedup) ∧
      a.summary.Sorted amountGe ∧
      a.summary ≠ [] ∧
      a.summary.headI = (a.topCategory, a.topAmount)) ∧
    displayBlock exampleStore 0 = some
      { total := 175
        overBudget := none
        summary := [("Food", 150), ("Transport", 25)]
        avgExpense := 175 / 3
        topCategory := "Food"
        topAmount := 150 } := by
  constructor
  · obtain ⟨x, xs, rfl⟩ : ∃ x xs, store = x :: xs := by
      cases store with
      | nil => exact absurd rfl h
      | cons x xs => exact ⟨x, xs, rfl⟩
    refine ⟨_, rfl, rfl, rfl, ?_, ?_, ?_, ?_, rfl⟩
    · exact fun p hp => summaryOf_mem hp
    · exact summaryOf_keys_perm _
    · exact summaryOf_sorted _
    · exact summaryOf_ne_nil (by simp)
  · decide

/-- Witness for `aggregator_correct` at the §8 example store. -/
theorem aggregator_correct_witness :
    exampleStore ≠ [] ∧
      ((∃ a, displayBlock exampleStore 0 = some a ∧
        a.total = (exampleStore.map (fun r => r.amount)).sum ∧
        a.avgExpense = a.total / (exampleStore.length : ℚ) ∧
        (∀ p ∈ a.summary, p.2 = categorySum exampleStore p.1) ∧
        List.Perm (a.summary.map Prod.fst) ((exampleStore.map (fun r => r.category)).dedup) ∧
        a.summary.Sorted amountGe ∧
        a.summary ≠ [] ∧
        a.summary.headI = (a.topCategory, a.topAmount)) ∧
      displayBlock exampleStore 0 = some
        { total := 175
          overBudget := none
          summary := [("Food", 150), ("Transport", 25)]
          avgExpense := 175 / 3
          topCategory := "Food"
          topAmount := 150 }) :=
  ⟨by decide, aggregator_correct exampleStore 0 (by decide)⟩

/-! ## C7: the budget check -/

/-- **C7.** For every non-empty store: with `budget > 0` the over-budget
flag is raised exactly when `total > budget`; with `budget = 0` the check
is skipped.  Concretely on the example store (total 175): budget 100 →
over, budget 200 → not over, budget 0 → skipped. -/
theorem budget_check (store : List ExpenseRecord) (b : ℚ) (h : store ≠ []) :
    (∃ a, displayBlock store b = some a ∧
      (0 < b → (a.overBudget = some true ↔ a.total > b)) ∧
      (b = 0 → a.overBudget = none)) ∧
    (displayBlock exampleStore 100).map (fun a => a.overBudget) = some (some true) ∧
    (displayBlock exampleStore 200).map (fun a => a.overBudget) = some (some false) ∧
    (displayBlock exampleStore 0).map (fun a => a.overBudget) = some none := by
  refine ⟨?_, by decide, by decide, by decide⟩
  obtain ⟨x, xs, rfl⟩ : ∃ x xs, store = x :: xs := by
    cases store with
    | nil => exact absurd rfl h
    | cons x xs => exact ⟨x, xs, rfl⟩
  refine ⟨_, rfl, ?_, ?_⟩
  · intro hb
    simp only [displayBlock, if_pos hb]
    simp [decide_eq_true_iff]
  · intro hb
    subst hb
    simp [displayBlock]

/-- Witness for `budget_check` at the example store with budget 100. -/
theorem budget_check_witness :
    exampleStore ≠ [] ∧
      ((∃ a, displayBlock exampleStore 100 = some a ∧
        (0 < (100 : ℚ) → (a.overBudget = some true ↔ a.total > 100)) ∧
        ((100 : ℚ) = 0 → a.overBudget = none)) ∧
      (displayBlock exampleStore 100).map (fun a => a.overBudget) = some (some true) ∧
      (displayBlock exampleStore 200).map (fun a => a.overBudget) = some (some false) ∧
      (displayBlock exampleStore 0).map (fun a => a.overBudget) = some none) :=
  ⟨by decide, budget_check exampleStore 100 (by decide)⟩

/-! ## C10: non-positive budgets -/

/-- **C10.** For every budget value `≤ 0` — including negative values —
the budget check is skipped exactly as for budget 0: the over-budget
condition is evaluated only when `budget > 0`. -/
theorem nonpositive_budget_skips_check (store : List ExpenseRecord) (b : ℚ)
    (h : store ≠ []) (hb : b ≤ 0) :
    ∃ a, displayBlock store b = some a ∧ a.overBudget = none := by
  obtain ⟨x, xs, rfl⟩ : ∃ x xs, store = x :: xs := by
    cases store with
    | nil => exact absurd rfl h
    | cons x xs => exact ⟨x, xs, rfl⟩
  refine ⟨_, rfl, ?_⟩
  simp only [displayBlock, if_neg (not_lt.mpr hb)]

/-- Witness for `nonpositive_budget_skips_check` with the negative budget
`-100`. -/
theorem nonpositive_budget_skips_check_witness :
    exampleStore ≠ [] ∧ (-100 : ℚ) ≤ 0 ∧
      ∃ a, displayBlock exampleStore (-100) = some a ∧ a.overBudget = none :=
  ⟨by decide, by decide,
    nonpositive_budget_skips_check exampleStore (-100) (by decide) (by decide)⟩

/-! ## C9: clear-all -/

/-- **C9.** After any sequence of ingestions, clear-all leaves the store
empty, and the aggregation pass — including the average's division by the
record count — is skipped entirely on the resulting empty store. -/
theorem clear_all_empties_store (ops : List Op) (b : ℚ) :
    runOps (ops ++ [Op.clear]) = [] ∧
      displayBlock (runOps (ops ++ [Op.clear])) b = none := by
  have h1 : runOps (ops ++ [Op.clear]) = [] := by
    simp [runOps, List.foldl_append, applyOp, clearAllExpenses]
  exact ⟨h1, by rw [h1]; rfl⟩

end ExpenseTracker
